import Mathlib

/-!
Verification of the cache layer in `zhenxun/services/cache.py`.

The development shallowly embeds the data model and the operations of
`CacheData` / `CacheManager`:

* Python values that flow through the codec are modelled by `PyVal`;
  Tortoise-ORM model classes are modelled by `TypeDesc` (the type's
  `_meta.fields_map`: field name to field descriptor), and model instances by
  the `PyVal.pyrecord` constructor carrying their descriptor and attribute
  assignment.
* `_serialize_value` / `_deserialize_value` become `serialize_value` /
  `deserialize_value`.
* The aiocache in-memory store becomes `Store`: an association list of
  JSON-shaped values plus three oracles saying which store calls raise.
* The async methods of `CacheData` become state-transition functions
  returning `Res`, which carries the produced value together with the cache
  state and store at normal return or at the point an exception escapes.
-/

/-- Descriptor of one Tortoise-ORM field, as consulted by the codec.
`plain` models concrete fields whose `to_python_value` is the identity on
JSON-shaped data, `reverseRel` models backward-relation fields (those the
source detects via `_related_name`), `enumField` models `CharEnumField` with
a str-valued enum class (`allowed` lists the member values), and
`datetimeField` models `DatetimeField` (its `to_python_value` parses the
ISO string produced by `isoformat`). -/
inductive FieldKind where
  | plain
  | reverseRel
  | enumField (allowed : List String)
  | datetimeField
deriving Repr, DecidableEq

/-- A record type's declared field set: the source's
`target_type ._meta.fields_map` (and the field-name iteration
`value ._meta.fields` for serialization). -/
structure TypeDesc where
  fields : List (String × FieldKind)
deriving Repr, DecidableEq

/-- Python runtime values crossing the codec boundary.
`pyenum` models a member of a str-based enum class (a `str` subclass, so it
passes the basic-type `isinstance` checks); `pyrecord` models a Tortoise
model instance (has `_meta`) with its attribute assignment and its
`_saved_in_db` flag; `pyrev` models a fetched reverse-relation value (the
list-like container carrying `_related_name` that the serializer skips);
`pyother` models any other object, whose `str()` is the carried string. -/
inductive PyVal where
  | pynone
  | pyint (n : Int)
  | pybool (b : Bool)
  | pystr (s : String)
  | pydatetime (iso : String)
  | pyenum (allowed : List String) (val : String)
  | pylist (xs : List PyVal)
  | pydict (entries : List (String × PyVal))
  | pyrecord (desc : TypeDesc) (vals : List (String × PyVal)) (savedInDb : Bool)
  | pyrev (xs : List PyVal)
  | pyother (repr : String)
deriving Repr

/-- Per-field information computed while serializing a record
(`_serialize_value`, Tortoise branch): either the field is skipped (its
value is a reverse-relation container), or it is a foreign-key model
instance (the source replaces it by that instance's id-attribute; we carry
the instance's serialized attribute list and extract `id` afterwards), or
it is an ordinary value, already serialized. -/
inductive SerInfo where
  | skip
  | fk (serIVals : List (String × PyVal))
  | val (v : PyVal)
deriving Repr

/-- Assemble the serialized dict of a record: iterate the type's declared
field names (`for field in value._meta.fields`); a missing attribute
(`AttributeError`) and a reverse-relation value are skipped; a foreign-key
instance contributes its `id` attribute (the source reads
`related_name or "id"`, modelled as the `id` attribute; a missing one is an
`AttributeError`, also skipped); any other value contributes its
serialization. -/
def buildRecord (fields : List (String × FieldKind))
    (infos : List (String × SerInfo)) : List (String × PyVal) :=
  fields.filterMap fun fk =>
    match infos.lookup fk.1 with
    | none => none
    | some .skip => none
    | some (.fk ivals) => (ivals.lookup "id").map fun idv => (fk.1, idv)
    | some (.val v) => some (fk.1, v)

mutual

/-- Embedding of `CacheData._serialize_value` (cache.py lines 254-305):
None passes through; `datetime` renders as its ISO string; a Tortoise model
renders as a dict over its declared fields (reverse-relation values
skipped, foreign-key instances replaced by their id attribute, missing
attributes skipped); dicts, lists, tuples and sets recurse (a fetched
reverse-relation container is list-like, hence serialized element-wise when
met outside a record field); int/float/str/bool (including str-enum
members) pass through; anything else is stringified. -/
def serialize_value : PyVal → PyVal
  | .pynone => .pynone
  | .pyint n => .pyint n
  | .pybool b => .pybool b
  | .pystr s => .pystr s
  | .pyenum a s => .pyenum a s
  | .pydatetime iso => .pystr iso
  | .pyother r => .pystr r
  | .pylist xs => .pylist (serializeList xs)
  | .pyrev xs => .pylist (serializeList xs)
  | .pydict l => .pydict (serializeEntries l)
  | .pyrecord desc vals _ => .pydict (buildRecord desc.fields (serializeInfos vals))

/-- Element-wise serialization of a Python list/tuple/set. -/
def serializeList : List PyVal → List PyVal
  | [] => []
  | x :: r => serialize_value x :: serializeList r

/-- Entry-wise serialization of a Python dict (keys are already strings in
this model, so the source's `str(k)` coercion is the identity). -/
def serializeEntries : List (String × PyVal) → List (String × PyVal)
  | [] => []
  | (n, v) :: r => (n, serialize_value v) :: serializeEntries r

/-- Classify and pre-serialize every attribute of a record, mirroring the
decisions the source takes per field inside the Tortoise branch of
`_serialize_value`. -/
def serializeInfos : List (String × PyVal) → List (String × SerInfo)
  | [] => []
  | (n, .pyrev _) :: r => (n, .skip) :: serializeInfos r
  | (n, .pyrecord _ ivals _) :: r => (n, .fk (serializeEntries ivals)) :: serializeInfos r
  | (n, v) :: r => (n, .val (serialize_value v)) :: serializeInfos r

end

/-- Models the source's `field.enum_class(field_value)` call for a
`CharEnumField` over a str-valued enum: succeeds exactly on a string (or
str-enum member) that is one of the member values, otherwise raises
`ValueError` (modelled as `none`). -/
def enumCoerce (allowed : List String) : PyVal → Option String
  | .pystr s => if allowed.contains s then some s else none
  | .pyenum _ s => if allowed.contains s then some s else none
  | _ => none

/-- Models `field.to_python_value`: identity for plain fields, ISO-string
parsing for datetime fields, enum construction for enum fields (None maps
to None without raising); `none` models a raised exception, which the
source catches per field. A reverse-relation descriptor has no
`field_type`, so the source `continue`s past it (modelled as `none`);
that case is unreachable because the first pass already dropped it. -/
def toPython : FieldKind → PyVal → Option PyVal
  | .plain, w => some w
  | .reverseRel, _ => none
  | .enumField _, .pynone => some .pynone
  | .enumField allowed, .pystr s =>
      if allowed.contains s then some (.pyenum allowed s) else none
  | .enumField allowed, .pyenum _ s =>
      if allowed.contains s then some (.pyenum allowed s) else none
  | .enumField _, _ => none
  | .datetimeField, .pynone => some .pynone
  | .datetimeField, .pystr s => some (.pydatetime s)
  | .datetimeField, .pydatetime s => some (.pydatetime s)
  | .datetimeField, _ => none

/-- First pass of the record branch of `_deserialize_value` (building
`processed_value`): a dict entry whose key is not a declared field is
dropped; a reverse-relation field is skipped; an enum field is coerced
through the enum class, a `ValueError` yielding `None`; other fields keep
their raw value. -/
def pass1Field (desc : TypeDesc) (e : String × PyVal) : Option (String × PyVal) :=
  match desc.fields.lookup e.1 with
  | none => none
  | some .reverseRel => none
  | some (.enumField allowed) =>
      some (e.1, match enumCoerce allowed e.2 with
                 | some s => .pyenum allowed s
                 | none => .pynone)
  | some _ => some (e.1, e.2)

/-- Second pass (populating the fresh instance): each processed field is
run through the field's `to_python_value` and set on the instance; a field
whose descriptor lacks a `field_type` and a field whose coercion raises are
skipped, leaving the remaining fields intact. -/
def pass2Field (desc : TypeDesc) (e : String × PyVal) : Option (String × PyVal) :=
  match desc.fields.lookup e.1 with
  | none => none
  | some k => (toPython k e.2).map fun w => (e.1, w)

/-- The attribute assignment produced when deserializing a dict against a
record type: both per-field passes in sequence. The input entries come
from a Python dict, so their keys are pairwise distinct; the passes treat
each entry independently, which `filterMap` captures. -/
def deserRecord (desc : TypeDesc) (entries : List (String × PyVal)) :
    List (String × PyVal) :=
  (entries.filterMap (pass1Field desc)).filterMap (pass2Field desc)

mutual

/-- Embedding of `CacheData._deserialize_value` (cache.py lines 123-212)
for the target types that occur as `result_model` in this repository:
a Tortoise record type or no target. None passes through; a dict with a
record target is reconstructed field by field and marked `_saved_in_db`;
a dict without a target and a list recurse element-wise with no target
(a record target is not a `list[...]` alias, so the list branch recurses
without a target either way); everything else is returned unchanged. -/
def deserialize_value (target : Option TypeDesc) : PyVal → PyVal
  | .pynone => .pynone
  | .pydict entries =>
      match target with
      | some desc => .pyrecord desc (deserRecord desc entries) true
      | none => .pydict (deserEntries entries)
  | .pylist xs => .pylist (deserList xs)
  | .pyint n => .pyint n
  | .pybool b => .pybool b
  | .pystr s => .pystr s
  | .pyenum a s => .pyenum a s
  | .pydatetime iso => .pydatetime iso
  | .pyrecord d v b => .pyrecord d v b
  | .pyrev xs => .pyrev xs
  | .pyother r => .pyother r

/-- Element-wise deserialization of a list, with no element target. -/
def deserList : List PyVal → List PyVal
  | [] => []
  | x :: r => deserialize_value none x :: deserList r

/-- Entry-wise deserialization of an untargeted dict. -/
def deserEntries : List (String × PyVal) → List (String × PyVal)
  | [] => []
  | (n, v) :: r => (n, deserialize_value none v) :: deserEntries r

end

mutual

/-- JSON-stable values: JSON-shaped data on which `serialize_value` is the
identity (None, int, bool, str, and lists/dicts thereof). -/
def jsonStable : PyVal → Bool
  | .pynone => true
  | .pyint _ => true
  | .pybool _ => true
  | .pystr _ => true
  | .pylist xs => jsonStableList xs
  | .pydict l => jsonStableEntries l
  | _ => false

def jsonStableList : List PyVal → Bool
  | [] => true
  | x :: r => jsonStable x && jsonStableList r

def jsonStableEntries : List (String × PyVal) → Bool
  | [] => true
  | (_, v) :: r => jsonStable v && jsonStableEntries r

end

mutual

/-- JSON-compatible trees: what `json.dumps` accepts. A str-enum member is
a `str` subclass, hence JSON-compatible. -/
def isJsonTree : PyVal → Bool
  | .pynone => true
  | .pyint _ => true
  | .pybool _ => true
  | .pystr _ => true
  | .pyenum _ _ => true
  | .pylist xs => isJsonTreeList xs
  | .pydict l => isJsonTreeEntries l
  | _ => false

def isJsonTreeList : List PyVal → Bool
  | [] => true
  | x :: r => isJsonTree x && isJsonTreeList r

def isJsonTreeEntries : List (String × PyVal) → Bool
  | [] => true
  | (_, v) :: r => isJsonTree v && isJsonTreeEntries r

end

mutual

/-- The JSON round trip applied by the store's `JsonSerializer` on `set`:
on the serializer's output the only visible effect is that a str-enum
member is written out as its plain string value. -/
def jsonNorm : PyVal → PyVal
  | .pyenum _ s => .pystr s
  | .pylist xs => .pylist (jsonNormList xs)
  | .pydict l => .pydict (jsonNormEntries l)
  | v => v

def jsonNormList : List PyVal → List PyVal
  | [] => []
  | x :: r => jsonNorm x :: jsonNormList r

def jsonNormEntries : List (String × PyVal) → List (String × PyVal)
  | [] => []
  | (n, v) :: r => (n, jsonNorm v) :: jsonNormEntries r

end

/-- Python truthiness of the modelled values (`if current_data:` and
`current_data or ... `-style checks in the source). A str-enum member
inherits str truthiness; a fetched reverse-relation container is
list-like. -/
def pyTruthy : PyVal → Bool
  | .pynone => false
  | .pyint n => !(n == 0)
  | .pybool b => b
  | .pystr s => !(s == "")
  | .pyenum _ s => !(s == "")
  | .pydatetime _ => true
  | .pylist xs => !xs.isEmpty
  | .pydict l => !l.isEmpty
  | .pyrecord _ _ _ => true
  | .pyrev xs => !xs.isEmpty
  | .pyother _ => true

/-- The aiocache in-memory backing store: an association list from full
cache keys to the JSON value stored there, plus three oracles that say
which `get`/`set`/`delete` calls raise (modelling timeouts or store
failures; the source wraps every store call in `try`). -/
structure Store where
  data : List (String × PyVal)
  failGet : String → Bool
  failSet : String → Bool
  failDel : String → Bool

/-- Insert-or-overwrite in the store's association map. -/
def assocSet (l : List (String × PyVal)) (k : String) (v : PyVal) :
    List (String × PyVal) :=
  (k, v) :: l.eraseP (fun e => e.1 == k)

/-- Embedding of `self._cache.get(key)`: raises when the oracle says so, otherwise
returns the stored value, `None` on a missing key. -/
def storeGet (s : Store) (k : String) : Except Unit PyVal :=
  if s.failGet k then .error () else .ok ((s.data.lookup k).getD .pynone)

/-- Embedding of `self._cache.set(key, value, ttl)`: raises when the oracle says so;
the stored value is the `JsonSerializer` round trip of the argument. -/
def storeSet (s : Store) (k : String) (v : PyVal) : Except Unit Store :=
  if s.failSet k then .error ()
  else .ok { s with data := assocSet s.data k (jsonNorm v) }

/-- Embedding of `self._cache.delete(key)`: raises when the oracle says so. -/
def storeDelete (s : Store) (k : String) : Except Unit Store :=
  if s.failDel k then .error ()
  else .ok { s with data := s.data.eraseP (fun e => e.1 == k) }

/-- A custom getter hook (`get_func` attached through
`CacheManager.getter`): it may read and write the store and may raise; an
escaping exception carries the store as mutated so far. -/
def GetterFn : Type := Store → String → Except Store (PyVal × Store)

/-- Runtime state of one `CacheData` object: its immutable configuration
(`name`, `lazy_load`, `result_model` and the optional hooks) together with
the mutable `reload_count` and the tracked key set `_keys`. The loader
`func` is not stored: each operation that may trigger it receives the
loader's outcome as an explicit argument. -/
structure CacheData where
  name : String
  reload_count : Nat
  lazy_load : Bool
  result_model : Option TypeDesc
  keys : List String
  getter : Option GetterFn
  updater : Option (PyVal → String → PyVal → PyVal)
  with_refresh : Option (PyVal → PyVal)

/-- Outcome of one async cache operation: the returned value with the cache
state and store at return, or the cache state and store at the moment an
exception escapes to the caller. -/
inductive Res (α : Type) where
  | ok (v : α) (st : CacheData) (store : Store)
  | err (st : CacheData) (store : Store)

/-- Whether an exception escaped the operation. -/
def Res.isErr : Res α → Bool
  | .ok _ _ _ => false
  | .err _ _ => true

/-- Embedding of `CacheData._get_cache_key`. -/
def cacheKey (st : CacheData) (key : String) : String :=
  st.name ++ ":" ++ key

/-- Python `set.add` on the tracked key list (kept duplicate-free). -/
def insertKey (k : String) (ks : List String) : List String :=
  if ks.contains k then ks else ks ++ [k]

/-- Everything of a Python dict key after its first colon:
`key.split(":", 1)[1]`. -/
def afterFirstColon : List Char → Option (List Char)
  | [] => none
  | c :: rest => if c = ':' then some rest else afterFirstColon rest

/-- Strip the `name:` prefix from a tracked key, as `get_all_data` does
with `key.split(":", 1)[1]`. A key with no colon would raise `IndexError`
in the source; tracked keys always contain one, so that branch returns the
key unchanged here. -/
def stripKeyName (s : String) : String :=
  match afterFirstColon s.data with
  | some cs => String.mk cs
  | none => s

/-- Embedding of `CacheData.set_key` (cache.py lines 488-498): serialize, store under
the prefixed key, then track the key; a store failure is logged and
re-raised, leaving the key untracked. -/
def CacheData.set_key (st : CacheData) (store : Store) (key : String)
    (value : PyVal) : Res Unit :=
  let ck := cacheKey st key
  match storeSet store ck (serialize_value value) with
  | .error _ => .err st store
  | .ok store1 => .ok () { st with keys := insertKey ck st.keys } store1

/-- Embedding of `CacheData.get_key` (cache.py lines 426-445): read the prefixed key,
deserialize against `result_model` when one is set; any exception is
caught and `None` is returned. Never raises and never mutates. -/
def CacheData.get_key (st : CacheData) (store : Store) (key : String) : PyVal :=
  match storeGet store (cacheKey st key) with
  | .error _ => .pynone
  | .ok data =>
      match st.result_model with
      | some m => deserialize_value (some m) data
      | none => data

/-- Embedding of `CacheData.get_data` (cache.py lines 214-252): read the bare cache
name (not a per-key entry), deserialize against `result_model` when set;
any exception is caught and `None` is returned. -/
def CacheData.get_data (st : CacheData) (store : Store) : PyVal :=
  match storeGet store st.name with
  | .error _ => .pynone
  | .ok data =>
      match st.result_model with
      | some m => deserialize_value (some m) data
      | none => data

/-- Embedding of `CacheData.set_data` (cache.py lines 307-325): serialize, delete the
old whole-dataset entry, store the new one under the bare name; failures
are logged and re-raised. The tracked key set is not touched. -/
def CacheData.set_data (st : CacheData) (store : Store) (value : PyVal) :
    Res Unit :=
  match storeDelete store st.name with
  | .error _ => .err st store
  | .ok store1 =>
      match storeSet store1 st.name (serialize_value value) with
      | .error _ => .err st store1
      | .ok store2 => .ok () st store2

/-- The loop body of `get_all_data`: read every tracked key in order,
stripping the name prefix and deserializing; the first failing store read
aborts the loop with the exception. -/
def getAllLoop (st : CacheData) (store : Store) :
    List String → Except Unit (List (String × PyVal))
  | [] => .ok []
  | k :: rest =>
      match storeGet store k with
      | .error _ => .error ()
      | .ok data =>
          let v := match st.result_model with
                   | some m => deserialize_value (some m) data
                   | none => data
          match getAllLoop st store rest with
          | .error _ => .error ()
          | .ok tail => .ok ((stripKeyName k, v) :: tail)

/-- Embedding of `CacheData.get_all_data` (cache.py lines 469-486): enumerate every
tracked key; the surrounding `try` turns any store failure into an empty
dict. Never raises and never mutates. -/
def CacheData.get_all_data (st : CacheData) (store : Store) :
    List (String × PyVal) :=
  match getAllLoop st store st.keys with
  | .error _ => []
  | .ok l => l

/-- The per-entry loop of `reload` over a keyed loader result: each pair is
persisted with `set_key`; the first failure escapes, preserving the
partial writes done so far. -/
def setKeysLoop (st : CacheData) (store : Store) :
    List (String × PyVal) → Res Unit
  | [] => .ok () st store
  | (k, v) :: rest =>
      match CacheData.set_key st store k v with
      | .err st1 store1 => .err st1 store1
      | .ok _ st1 store1 => setKeysLoop st1 store1 rest

/-- Embedding of `CacheData.reload` (cache.py lines 383-411). The loader's outcome is
passed in as `loaderRes` (`.error` models the loader raising). A dict
result is persisted entry by entry under per-key entries; any other result
is persisted under the single key `"default"`. On success `reload_count`
is incremented; any exception (loader or store) is logged and re-raised,
leaving the count unchanged and partial writes in place. -/
def CacheData.reload (st : CacheData) (store : Store)
    (loaderRes : Except Unit PyVal) : Res Unit :=
  match loaderRes with
  | .error _ => .err st store
  | .ok new_data =>
      match new_data with
      | .pydict entries =>
          match setKeysLoop st store entries with
          | .err st1 store1 => .err st1 store1
          | .ok _ st1 store1 =>
              .ok () { st1 with reload_count := st1.reload_count + 1 } store1
      | other =>
          match CacheData.set_key st store "default" other with
          | .err st1 store1 => .err st1 store1
          | .ok _ st1 store1 =>
              .ok () { st1 with reload_count := st1.reload_count + 1 } store1

/-- Embedding of `CacheData.update` (cache.py lines 354-367): without an updater, log a
warning and return (state and store untouched); with one, read the current
entry (`or {}` on a falsy read), let the updater mutate it, and persist it
with `set_key`, whose failures propagate. -/
def CacheData.update (st : CacheData) (store : Store) (key : String)
    (value : PyVal) : Res Unit :=
  match st.updater with
  | none => .ok () st store
  | some f =>
      let read := CacheData.get_key st store key
      let current := if pyTruthy read then read else .pydict []
      CacheData.set_key st store key (f current key value)

/-- Embedding of `CacheData.refresh` (cache.py lines 369-381): without a refresher,
exactly `reload`; with one, read the whole-dataset entry under the bare
name, and only when it is truthy run the refresher over it and persist the
result with `set_data` (whose failures propagate). -/
def CacheData.refresh (st : CacheData) (store : Store)
    (loaderRes : Except Unit PyVal) : Res Unit :=
  match st.with_refresh with
  | none => CacheData.reload st store loaderRes
  | some f =>
      let current := CacheData.get_data st store
      if pyTruthy current then CacheData.set_data st store (f current)
      else .ok () st store

/-- The loop of `clear`: delete every tracked key; the first failing
delete aborts the loop, keeping the store as mutated so far. -/
def clearLoop (store : Store) : List String → Except Store Store
  | [] => .ok store
  | k :: rest =>
      match storeDelete store k with
      | .error _ => .error store
      | .ok store1 => clearLoop store1 rest

/-- Embedding of `CacheData.clear` (cache.py lines 510-518): delete every tracked entry
then empty the key set; any failure is caught and logged, leaving the key
set untouched (and earlier deletes done). Never raises. -/
def CacheData.clear (st : CacheData) (store : Store) : Res Unit :=
  match clearLoop store st.keys with
  | .error store1 => .ok () st store1
  | .ok store1 => .ok () { st with keys := [] } store1

/-- The read performed by `get` after the lazy-init check: the default
path reads the key directly (`get_key`); a custom getter is run and its
result deserialized against `result_model` (`CacheGetter.get`). -/
def getAfter (st : CacheData) (store : Store) (key : String) : Res PyVal :=
  match st.getter with
  | none => .ok (CacheData.get_key st store key) st store
  | some g =>
      match g store key with
      | .error store1 => .err st store1
      | .ok (data, store1) =>
          let v := match st.result_model with
                   | some m => deserialize_value (some m) data
                   | none => data
          .ok v st store1

/-- Embedding of `CacheData.get` (cache.py lines 334-342): when no reload has happened
yet and the cache is not lazy, a full `reload` runs first (its exceptions
propagate); then the read is performed. -/
def CacheData.get (st : CacheData) (store : Store)
    (loaderRes : Except Unit PyVal) (key : String) : Res PyVal :=
  if st.reload_count == 0 && !st.lazy_load then
    match CacheData.reload st store loaderRes with
    | .err st1 store1 => .err st1 store1
    | .ok _ st1 store1 => getAfter st1 store1 key
  else
    getAfter st store key

/-- The read performed by `get_all` after the lazy-init check. With no
getter, `get_all_data`; with a getter, `CacheGetter.get_all`, which —
`CacheManager.getter` never sets `get_all_func` — also reads
`get_all_data` and then deserializes each value once more against
`result_model`. -/
def getAllAfter (st : CacheData) (store : Store) : Res PyVal :=
  match st.getter with
  | none => .ok (.pydict (CacheData.get_all_data st store)) st store
  | some _ =>
      let data := CacheData.get_all_data st store
      let out := match st.result_model with
                 | some m => data.map fun kv => (kv.1, deserialize_value (some m) kv.2)
                 | none => data
      .ok (.pydict out) st store

/-- Embedding of `CacheData.get_all` (cache.py lines 344-352): same lazy-init check as
`get`, then the bulk read. -/
def CacheData.get_all (st : CacheData) (store : Store)
    (loaderRes : Except Unit PyVal) : Res PyVal :=
  if st.reload_count == 0 && !st.lazy_load then
    match CacheData.reload st store loaderRes with
    | .err st1 store1 => .err st1 store1
    | .ok _ st1 store1 => getAllAfter st1 store1
  else
    getAllAfter st store

section CodecLemmas

/-- A positive association-list lookup finds a value satisfying any
predicate that holds of every value in the list. -/
theorem all_of_lookup {α : Type} (P : α → Bool) :
    ∀ (l : List (String × α)) (n : String) (v : α),
      l.all (fun e => P e.2) = true → l.lookup n = some v → P v = true
  | [], _, _, _, h => by simp [List.lookup] at h
  | (k, w) :: rest, n, v, hall, hl => by
      simp only [List.all_cons, Bool.and_eq_true] at hall
      rw [List.lookup_cons] at hl
      by_cases hk : n == k
      · simp [hk] at hl
        exact hl ▸ hall.1
      · simp [hk] at hl
        exact all_of_lookup P rest n v hall.2 hl

/-- Lookup misses when the key is absent from the key list. -/
theorem lookup_eq_none_of_not_mem {α : Type} (l : List (String × α)) (n : String)
    (h : n ∉ l.map Prod.fst) : l.lookup n = none := by
  rw [List.lookup_eq_none_iff]
  intro p hp
  have hmem : p.1 ∈ l.map Prod.fst := List.mem_map.mpr ⟨p, hp, rfl⟩
  have hne : n ≠ p.1 := fun he => h (he ▸ hmem)
  simpa using hne

/-- With duplicate-free keys, membership determines lookup. -/
theorem lookup_of_mem_nodup {α : Type} :
    ∀ (l : List (String × α)) (n : String) (v : α),
      (l.map Prod.fst).Nodup → (n, v) ∈ l → l.lookup n = some v
  | [], _, _, _, h => by simp at h
  | (k, w) :: rest, n, v, hnd, hmem => by
      simp only [List.map_cons, List.nodup_cons] at hnd
      rcases List.mem_cons.mp hmem with heq | htail
      · obtain ⟨h1, h2⟩ := Prod.mk.injEq .. ▸ heq
        subst h1; subst h2
        simp [List.lookup_cons]
      · have hkey : n ∈ rest.map Prod.fst :=
          List.mem_map.mpr ⟨(n, v), htail, rfl⟩
        have : (n == k) = false := by
          have : n ≠ k := fun h => hnd.1 (h ▸ hkey)
          simp [this]
        rw [List.lookup_cons]
        simp [this]
        exact lookup_of_mem_nodup rest n v hnd.2 htail

/-- Keys survive a key-preserving `filterMap` as a sublist. -/
theorem filterMap_keys_sublist {α β : Type} (f : String × α → Option (String × β))
    (hf : ∀ e e', f e = some e' → e'.1 = e.1) :
    ∀ l : List (String × α),
      ((l.filterMap f).map Prod.fst).Sublist (l.map Prod.fst)
  | [] => by simp
  | e :: rest => by
      rw [List.filterMap_cons]
      cases hfe : f e with
      | none =>
          simp only [List.map_cons]
          exact (filterMap_keys_sublist f hf rest).cons _
      | some e' =>
          simp only [List.map_cons]
          rw [hf e e' hfe]
          exact (filterMap_keys_sublist f hf rest).cons₂ _

/-- Over duplicate-free keys, looking a key up after a key-preserving
`filterMap` is the same as transforming that key's own entry: each entry
is processed independently of all others. -/
theorem lookup_filterMap_nodup {α β : Type} (f : String × α → Option (String × β))
    (hf : ∀ e e', f e = some e' → e'.1 = e.1) :
    ∀ (l : List (String × α)) (n : String),
      (l.map Prod.fst).Nodup →
      (l.filterMap f).lookup n = (l.lookup n).bind fun w => (f (n, w)).map Prod.snd
  | [], n, _ => by simp [List.lookup]
  | (k, w) :: rest, n, hnd => by
      simp only [List.map_cons, List.nodup_cons] at hnd
      have ih := lookup_filterMap_nodup f hf rest n hnd.2
      by_cases hk : n = k
      · subst hk
        cases hfe : f (n, w) with
        | none =>
            rw [List.filterMap_cons_none hfe]
            have hnm : n ∉ (rest.filterMap f).map Prod.fst := fun hmem =>
              hnd.1 ((filterMap_keys_sublist f hf rest).mem hmem)
            rw [lookup_eq_none_of_not_mem _ n hnm, List.lookup_cons]
            simp [hfe]
        | some e' =>
            rw [List.filterMap_cons_some hfe]
            obtain ⟨k', v'⟩ := e'
            have hk' : k' = n := hf _ _ hfe
            subst hk'
            simp [List.lookup_cons, hfe]
      · have hbeq : (n == k) = false := by simp [hk]
        cases hfe : f (k, w) with
        | none =>
            rw [List.filterMap_cons_none hfe]
            rw [List.lookup_cons]
            simp only [hbeq]
            exact ih
        | some e' =>
            rw [List.filterMap_cons_some hfe]
            obtain ⟨k', v'⟩ := e'
            have hk' : k' = k := hf _ _ hfe
            subst hk'
            rw [List.lookup_cons, List.lookup_cons]
            simp only [hbeq]
            exact ih

end CodecLemmas

/-- The per-attribute decision `serializeInfos` takes, as a plain function
of the attribute value. -/
def infoOf : PyVal → SerInfo
  | .pyrev _ => .skip
  | .pyrecord _ ivals _ => .fk (serializeEntries ivals)
  | .pynone => .val (serialize_value .pynone)
  | .pyint n => .val (serialize_value (.pyint n))
  | .pybool b => .val (serialize_value (.pybool b))
  | .pystr s => .val (serialize_value (.pystr s))
  | .pydatetime iso => .val (serialize_value (.pydatetime iso))
  | .pyenum a s => .val (serialize_value (.pyenum a s))
  | .pylist xs => .val (serialize_value (.pylist xs))
  | .pydict l => .val (serialize_value (.pydict l))
  | .pyother r => .val (serialize_value (.pyother r))

/-- Fact: `serializeInfos` is entry-wise application of `infoOf`. -/
theorem lookup_serializeInfos :
    ∀ (l : List (String × PyVal)) (n : String),
      (serializeInfos l).lookup n = (l.lookup n).map infoOf
  | [], _ => rfl
  | (k, v) :: rest, n => by
      have ih := lookup_serializeInfos rest n
      have hhead : ∀ r, serializeInfos ((k, v) :: r) = (k, infoOf v) :: serializeInfos r := by
        intro r
        cases v <;> rfl
      rw [hhead, List.lookup_cons, List.lookup_cons]
      by_cases hk : n == k
      · simp [hk]
      · simp only [Bool.not_eq_true] at hk
        simp [hk, ih]

mutual

/-- Fact: `serialize_value` is the identity on JSON-stable values. -/
theorem stable_serialize :
    ∀ v : PyVal, jsonStable v = true → serialize_value v = v
  | .pynone, _ => rfl
  | .pyint _, _ => rfl
  | .pybool _, _ => rfl
  | .pystr _, _ => rfl
  | .pylist xs, h => by
      rw [serialize_value]
      rw [stable_serializeList xs (by simpa [jsonStable] using h)]
  | .pydict l, h => by
      rw [serialize_value]
      rw [stable_serializeEntries l (by simpa [jsonStable] using h)]

theorem stable_serializeList :
    ∀ xs : List PyVal, jsonStableList xs = true → serializeList xs = xs
  | [], _ => rfl
  | x :: r, h => by
      have hx : jsonStable x = true := by
        simp [jsonStableList, Bool.and_eq_true] at h
        exact h.1
      have hr : jsonStableList r = true := by
        simp [jsonStableList, Bool.and_eq_true] at h
        exact h.2
      rw [serializeList, stable_serialize x hx, stable_serializeList r hr]

theorem stable_serializeEntries :
    ∀ l : List (String × PyVal), jsonStableEntries l = true → serializeEntries l = l
  | [], _ => rfl
  | (n, v) :: r, h => by
      have hx : jsonStable v = true := by
        simp [jsonStableEntries, Bool.and_eq_true] at h
        exact h.1
      have hr : jsonStableEntries r = true := by
        simp [jsonStableEntries, Bool.and_eq_true] at h
        exact h.2
      rw [serializeEntries, stable_serialize v hx, stable_serializeEntries r hr]

end

/-- A value is acceptable for a declared field: plain fields hold
JSON-stable data, reverse-relation fields hold reverse-relation
containers, enum fields hold members of their own enum class, datetime
fields hold datetimes. -/
def fieldOk : FieldKind → PyVal → Bool
  | .plain, v => jsonStable v
  | .reverseRel, .pyrev _ => true
  | .reverseRel, _ => false
  | .enumField allowed, .pyenum a s => a == allowed && allowed.contains s
  | .enumField _, _ => false
  | .datetimeField, .pydatetime _ => true
  | .datetimeField, _ => false

/-- The record's attribute list assigns every declared field an acceptable
value. -/
def fieldPresent (vals : List (String × PyVal)) (fk : String × FieldKind) : Bool :=
  match vals.lookup fk.1 with
  | some v => fieldOk fk.2 v
  | none => false

/-- A record instance is well-typed for its type descriptor: the declared
field names are duplicate-free and every declared field holds an
acceptable value. -/
def WellTypedRecord (desc : TypeDesc) (vals : List (String × PyVal)) : Bool :=
  decide (desc.fields.map Prod.fst).Nodup && desc.fields.all (fieldPresent vals)

/-- The attribute assignment a round trip is expected to produce: the
declared fields in declaration order, reverse-relation fields dropped,
every other field bound to its original value. -/
def roundtripFields (desc : TypeDesc) (vals : List (String × PyVal)) :
    List (String × PyVal) :=
  desc.fields.filterMap fun fk =>
    match fk.2 with
    | .reverseRel => none
    | _ => (vals.lookup fk.1).map fun v => (fk.1, v)

/-- On JSON-stable values the serializer classifies the attribute as a
plain value and leaves it unchanged. -/
theorem infoOf_stable : ∀ v : PyVal, jsonStable v = true → infoOf v = .val v := by
  intro v h
  cases v with
  | pynone => rfl
  | pyint n => rfl
  | pybool b => rfl
  | pystr s => rfl
  | pylist xs =>
      show SerInfo.val (serialize_value (.pylist xs)) = .val (.pylist xs)
      rw [stable_serialize _ h]
  | pydict l =>
      show SerInfo.val (serialize_value (.pydict l)) = .val (.pydict l)
      rw [stable_serialize _ h]
  | pydatetime iso => exact absurd h (by simp [jsonStable])
  | pyenum a s => exact absurd h (by simp [jsonStable])
  | pyrecord d w b => exact absurd h (by simp [jsonStable])
  | pyrev xs => exact absurd h (by simp [jsonStable])
  | pyother r => exact absurd h (by simp [jsonStable])

/-- C2 core law: deserializing the serialization of a well-typed record
against its own type reproduces exactly the non-reverse-relation fields
with their original values (reverse-relation fields are dropped), and
marks the instance as saved. -/
theorem record_roundtrip (desc : TypeDesc) (vals : List (String × PyVal)) (b : Bool)
    (h : WellTypedRecord desc vals = true) :
    deserialize_value (some desc) (serialize_value (.pyrecord desc vals b)) =
      .pyrecord desc (roundtripFields desc vals) true := by
  rw [WellTypedRecord, Bool.and_eq_true, decide_eq_true_eq, List.all_eq_true] at h
  obtain ⟨hnd, hall⟩ := h
  simp only [serialize_value, deserialize_value]
  suffices hmain :
      deserRecord desc (buildRecord desc.fields (serializeInfos vals)) =
        roundtripFields desc vals by
    rw [hmain]
  rw [deserRecord, buildRecord, roundtripFields,
    List.filterMap_filterMap, List.filterMap_filterMap]
  apply List.filterMap_congr
  intro fk hfk
  obtain ⟨n, k⟩ := fk
  have hpres := hall _ hfk
  rw [fieldPresent] at hpres
  cases hv : vals.lookup n with
  | none => rw [hv] at hpres; simp at hpres
  | some v =>
      rw [hv] at hpres
      have hkl : desc.fields.lookup n = some k := lookup_of_mem_nodup _ _ _ hnd hfk
      simp only [lookup_serializeInfos vals n, hv, Option.map_some']
      cases k with
      | reverseRel =>
          cases v <;> simp [fieldOk] at hpres
          simp [infoOf]
      | plain =>
          rw [infoOf_stable v hpres]
          simp [pass1Field, pass2Field, hkl, toPython, hv]
      | enumField allowed =>
          cases v <;> simp [fieldOk] at hpres
          case pyenum a s =>
            obtain ⟨ha, hc⟩ := hpres
            subst ha
            simp [infoOf, serialize_value, pass1Field, pass2Field, hkl,
              enumCoerce, hc, toPython, hv]
      | datetimeField =>
          cases v <;> simp [fieldOk] at hpres
          case pydatetime iso =>
            simp [infoOf, serialize_value, pass1Field, pass2Field, hkl,
              toPython, hv]

/-- Values of a JSON-tree association list are JSON trees. -/
theorem entriesJson_lookup :
    ∀ (l : List (String × PyVal)) (n : String) (v : PyVal),
      isJsonTreeEntries l = true → l.lookup n = some v → isJsonTree v = true
  | [], _, _, _, h => by simp at h
  | (k, w) :: rest, n, v, hall, hl => by
      rw [isJsonTreeEntries, Bool.and_eq_true] at hall
      rw [List.lookup_cons] at hl
      by_cases hk : n == k
      · simp [hk] at hl
        exact hl ▸ hall.1
      · simp [hk] at hl
        exact entriesJson_lookup rest n v hall.2 hl

/-- A single per-field serialization outcome made of JSON trees. -/
def serInfoJson : SerInfo → Bool
  | .skip => true
  | .fk ivals => isJsonTreeEntries ivals
  | .val v => isJsonTree v

/-- Every per-field serialization outcome is a JSON tree (a skipped field
trivially, a foreign key through its serialized attribute list, a plain
value through its serialization). -/
def infosJson (l : List (String × SerInfo)) : Bool :=
  l.all fun e => serInfoJson e.2

/-- Fact: `serializeInfos` processes one attribute at a time via `infoOf`. -/
theorem serializeInfos_cons (e : String × PyVal) (r : List (String × PyVal)) :
    serializeInfos (e :: r) = (e.1, infoOf e.2) :: serializeInfos r := by
  obtain ⟨n, v⟩ := e
  cases v <;> rfl

/-- Assembling a record dict out of JSON-tree field outcomes yields a
JSON-tree dict. -/
theorem buildRecord_json (infos : List (String × SerInfo))
    (hinfo : infosJson infos = true) :
    ∀ fields : List (String × FieldKind),
      isJsonTreeEntries (buildRecord fields infos) = true
  | [] => rfl
  | fk :: rest => by
      have ih := buildRecord_json infos hinfo rest
      simp only [buildRecord, List.filterMap_cons] at ih ⊢
      cases hl : infos.lookup fk.1 with
      | none => simp only [hl]; exact ih
      | some i =>
          have hi : serInfoJson i = true :=
            all_of_lookup serInfoJson infos fk.1 i hinfo hl
          cases i with
          | skip => simp only [hl]; exact ih
          | fk ivals =>
              simp only [hl]
              cases hid : ivals.lookup "id" with
              | none => simp only [hid, Option.map_none']; exact ih
              | some idv =>
                  simp only [hid, Option.map_some']
                  rw [isJsonTreeEntries, Bool.and_eq_true]
                  exact ⟨entriesJson_lookup ivals "id" idv hi hid, ih⟩
          | val v =>
              simp only [hl]
              rw [isJsonTreeEntries, Bool.and_eq_true]
              exact ⟨hi, ih⟩

mutual

/-- Fact: `serialize_value` always produces a JSON-compatible tree: the source's
serializer never raises, falling back to stringification. -/
theorem serialize_value_json : ∀ v : PyVal, isJsonTree (serialize_value v) = true
  | .pynone => rfl
  | .pyint _ => rfl
  | .pybool _ => rfl
  | .pystr _ => rfl
  | .pyenum _ _ => rfl
  | .pydatetime _ => rfl
  | .pyother _ => rfl
  | .pylist xs => by
      rw [serialize_value]
      rw [show isJsonTree (.pylist (serializeList xs)) = isJsonTreeList (serializeList xs) from rfl]
      exact serializeList_json xs
  | .pyrev xs => by
      rw [serialize_value]
      rw [show isJsonTree (.pylist (serializeList xs)) = isJsonTreeList (serializeList xs) from rfl]
      exact serializeList_json xs
  | .pydict l => by
      rw [serialize_value]
      rw [show isJsonTree (.pydict (serializeEntries l)) = isJsonTreeEntries (serializeEntries l) from rfl]
      exact serializeEntries_json l
  | .pyrecord desc vals b => by
      rw [serialize_value]
      rw [show isJsonTree (.pydict (buildRecord desc.fields (serializeInfos vals))) =
            isJsonTreeEntries (buildRecord desc.fields (serializeInfos vals)) from rfl]
      exact buildRecord_json _ (serializeInfos_json vals) _

theorem serializeList_json : ∀ xs : List PyVal, isJsonTreeList (serializeList xs) = true
  | [] => rfl
  | x :: r => by
      rw [serializeList, isJsonTreeList, Bool.and_eq_true]
      exact ⟨serialize_value_json x, serializeList_json r⟩

theorem serializeEntries_json :
    ∀ l : List (String × PyVal), isJsonTreeEntries (serializeEntries l) = true
  | [] => rfl
  | (n, v) :: r => by
      rw [serializeEntries, isJsonTreeEntries, Bool.and_eq_true]
      exact ⟨serialize_value_json v, serializeEntries_json r⟩

theorem serializeInfos_json :
    ∀ l : List (String × PyVal), infosJson (serializeInfos l) = true
  | [] => rfl
  | (n, v) :: r => by
      rw [serializeInfos_cons]
      rw [show infosJson ((n, infoOf v) :: serializeInfos r) =
            (serInfoJson (infoOf v) && infosJson (serializeInfos r)) from rfl]
      rw [Bool.and_eq_true]
      refine ⟨?_, serializeInfos_json r⟩
      cases v with
      | pyrev xs => rfl
      | pyrecord d ivals b => exact serializeEntries_json ivals
      | pynone => exact serialize_value_json .pynone
      | pyint m => exact serialize_value_json (.pyint m)
      | pybool b => exact serialize_value_json (.pybool b)
      | pystr s => exact serialize_value_json (.pystr s)
      | pydatetime iso => exact serialize_value_json (.pydatetime iso)
      | pyenum a s => exact serialize_value_json (.pyenum a s)
      | pylist xs => exact serialize_value_json (.pylist xs)
      | pydict l2 => exact serialize_value_json (.pydict l2)
      | pyother s => exact serialize_value_json (.pyother s)

end

/-- The complete treatment one single field receives during record
deserialization: declared-field lookup and enum coercion (first pass),
then `to_python_value` and the instance assignment (second pass); `none`
is a field that ends up absent from the instance. -/
def deserField (desc : TypeDesc) (n : String) (w : PyVal) : Option PyVal :=
  ((pass1Field desc (n, w)).bind (pass2Field desc)).map Prod.snd

/-- Fact: `pass1Field` keeps the entry's key. -/
theorem pass1Field_key (desc : TypeDesc) (e e' : String × PyVal)
    (h : pass1Field desc e = some e') : e'.1 = e.1 := by
  rw [pass1Field] at h
  split at h
  · exact absurd h (by simp)
  · exact absurd h (by simp)
  · cases h; rfl
  · cases h; rfl

/-- Fact: `pass2Field` keeps the entry's key. -/
theorem pass2Field_key (desc : TypeDesc) (e e' : String × PyVal)
    (h : pass2Field desc e = some e') : e'.1 = e.1 := by
  rw [pass2Field] at h
  split at h
  · exact absurd h (by simp)
  · cases htp : toPython _ e.2 with
    | none => rw [htp] at h; exact absurd h (by simp)
    | some w => rw [htp] at h; cases h; rfl

/-- Per-field independence of record deserialization: over a dict (whose
keys are pairwise distinct), each field of the reconstructed instance is
exactly the outcome of processing that field's own entry — a failed
coercion removes only its own field and cannot abort the others. -/
theorem deserRecord_lookup (desc : TypeDesc) (entries : List (String × PyVal))
    (hnd : (entries.map Prod.fst).Nodup) (n : String) :
    (deserRecord desc entries).lookup n = (entries.lookup n).bind (deserField desc n) := by
  rw [deserRecord]
  have hnd1 : ((entries.filterMap (pass1Field desc)).map Prod.fst).Nodup :=
    (filterMap_keys_sublist _ (pass1Field_key desc) entries).nodup hnd
  rw [lookup_filterMap_nodup _ (pass2Field_key desc) _ n hnd1]
  rw [lookup_filterMap_nodup _ (pass1Field_key desc) _ n hnd]
  cases hl : entries.lookup n with
  | none => rfl
  | some w =>
      show ((pass1Field desc (n, w)).map Prod.snd).bind
          (fun w => (pass2Field desc (n, w)).map Prod.snd) =
        deserField desc n w
      rw [deserField]
      cases hp1 : pass1Field desc (n, w) with
      | none => rfl
      | some e1 =>
          obtain ⟨k1, w1⟩ := e1
          have hk1 : k1 = n := pass1Field_key desc _ _ hp1
          subst hk1
          rfl

mutual

/-- The store's JSON round trip is the identity on JSON-stable values. -/
theorem stable_jsonNorm : ∀ v : PyVal, jsonStable v = true → jsonNorm v = v
  | .pynone, _ => rfl
  | .pyint _, _ => rfl
  | .pybool _, _ => rfl
  | .pystr _, _ => rfl
  | .pylist xs, h => by
      rw [jsonNorm]
      rw [stable_jsonNormList xs (by simpa [jsonStable] using h)]
  | .pydict l, h => by
      rw [jsonNorm]
      rw [stable_jsonNormEntries l (by simpa [jsonStable] using h)]

theorem stable_jsonNormList :
    ∀ xs : List PyVal, jsonStableList xs = true → jsonNormList xs = xs
  | [], _ => rfl
  | x :: r, h => by
      rw [jsonStableList, Bool.and_eq_true] at h
      rw [jsonNormList, stable_jsonNorm x h.1, stable_jsonNormList r h.2]

theorem stable_jsonNormEntries :
    ∀ l : List (String × PyVal), jsonStableEntries l = true → jsonNormEntries l = l
  | [], _ => rfl
  | (n, v) :: r, h => by
      rw [jsonStableEntries, Bool.and_eq_true] at h
      rw [jsonNormEntries, stable_jsonNorm v h.1, stable_jsonNormEntries r h.2]

end

section MachineLemmas

/-- Closed form of `set_key`: a failing store write re-raises with nothing
changed; a successful one stores the normalized serialization and tracks
the key. -/
theorem set_key_spec (st : CacheData) (store : Store) (k : String) (v : PyVal) :
    CacheData.set_key st store k v =
      if store.failSet (cacheKey st k) then .err st store
      else
        .ok () { st with keys := insertKey (cacheKey st k) st.keys }
          { store with
              data := assocSet store.data (cacheKey st k) (jsonNorm (serialize_value v)) } := by
  by_cases hf : store.failSet (cacheKey st k)
  · simp only [CacheData.set_key, storeSet, hf, if_true]
  · simp only [CacheData.set_key, storeSet, hf, Bool.false_eq_true, if_false]

/-- Appending a distinct suffix after the cache-name prefix is injective. -/
theorem cacheKey_inj (st : CacheData) {k1 k2 : String}
    (h : cacheKey st k1 = cacheKey st k2) : k1 = k2 := by
  have hd := congrArg String.data h
  rw [cacheKey, cacheKey] at hd
  simp only [String.data_append, List.append_assoc] at hd
  exact String.ext (List.append_cancel_left (List.append_cancel_left hd))

/-- A per-key entry never collides with the bare cache name. -/
theorem cacheKey_ne_name (st : CacheData) (k : String) : cacheKey st k ≠ st.name := by
  intro h
  have hd := congrArg (fun s => s.data.length) h
  rw [cacheKey] at hd
  simp only [String.data_append, List.length_append, List.length_singleton] at hd
  omega

/-- Reading a different key is unaffected by `eraseP` on a key. -/
theorem lookup_eraseP_other {q k : String} (hne : q ≠ k) :
    ∀ d : List (String × PyVal),
      (d.eraseP (fun e => e.1 == k)).lookup q = d.lookup q
  | [] => rfl
  | (k0, v0) :: rest => by
      rw [List.eraseP_cons]
      by_cases h0 : k0 = k
      · subst h0
        simp only [beq_self_eq_true, cond_true]
        rw [List.lookup_cons]
        have : (q == k0) = false := by simp [hne]
        simp [this]
      · have h0b : (k0 == k) = false := by simp [h0]
        simp only [h0b, cond_false]
        rw [List.lookup_cons, List.lookup_cons]
        by_cases hq : q == k0
        · simp [hq]
        · simp only [Bool.not_eq_true] at hq
          simp [hq]
          exact lookup_eraseP_other hne rest

/-- Fact: `assocSet` stores at its own key. -/
theorem assocSet_lookup_self (d : List (String × PyVal)) (k : String) (v : PyVal) :
    (assocSet d k v).lookup k = some v := by
  rw [assocSet]
  simp [List.lookup_cons]

/-- Fact: `assocSet` leaves other keys alone. -/
theorem assocSet_lookup_other (d : List (String × PyVal)) {q k : String} (v : PyVal)
    (hne : q ≠ k) : (assocSet d k v).lookup q = d.lookup q := by
  rw [assocSet, List.lookup_cons]
  have : (q == k) = false := by simp [hne]
  simp only [this]
  exact lookup_eraseP_other hne d

/-- The store contents after persisting a keyed loader result entry by
entry, as `reload` does. -/
def writeEntriesN (name : String) (d : List (String × PyVal)) :
    List (String × PyVal) → List (String × PyVal)
  | [] => d
  | (k, v) :: rest =>
      writeEntriesN name (assocSet d (name ++ ":" ++ k) (jsonNorm (serialize_value v))) rest

/-- The tracked key set after persisting a keyed loader result entry by
entry. -/
def trackKeysN (name : String) (ks : List String) :
    List (String × PyVal) → List String
  | [] => ks
  | (k, _) :: rest => trackKeysN name (insertKey (name ++ ":" ++ k) ks) rest

/-- Closed form of the `reload` write loop when no store write fails. -/
theorem setKeysLoop_nofail :
    ∀ (entries : List (String × PyVal)) (st : CacheData) (store : Store),
      (∀ e ∈ entries, store.failSet (cacheKey st e.1) = false) →
      setKeysLoop st store entries =
        .ok () { st with keys := trackKeysN st.name st.keys entries }
          { store with data := writeEntriesN st.name store.data entries }
  | [], st, store, _ => rfl
  | (k, v) :: rest, st, store, hf => by
      have hk : store.failSet (cacheKey st k) = false := hf (k, v) (by simp)
      simp only [setKeysLoop, set_key_spec, hk, Bool.false_eq_true, if_false]
      exact setKeysLoop_nofail rest
        { st with keys := insertKey (cacheKey st k) st.keys }
        { store with data := assocSet store.data (cacheKey st k) (jsonNorm (serialize_value v)) }
        (fun e he => hf e (List.mem_cons_of_mem _ he))

/-- The write loop preserves the whole configuration (everything except
the tracked keys) and the failure oracles, in both outcomes. -/
theorem setKeysLoop_frame :
    ∀ (entries : List (String × PyVal)) (st : CacheData) (store : Store),
      (∀ st1 store1, setKeysLoop st store entries = .err st1 store1 →
        st1.name = st.name ∧ st1.reload_count = st.reload_count ∧
        st1.lazy_load = st.lazy_load ∧ st1.result_model = st.result_model ∧
        st1.getter = st.getter ∧ st1.updater = st.updater ∧
        st1.with_refresh = st.with_refresh ∧
        store1.failGet = store.failGet ∧ store1.failSet = store.failSet ∧
        store1.failDel = store.failDel) ∧
      (∀ u st1 store1, setKeysLoop st store entries = .ok u st1 store1 →
        st1.name = st.name ∧ st1.reload_count = st.reload_count ∧
        st1.lazy_load = st.lazy_load ∧ st1.result_model = st.result_model ∧
        st1.getter = st.getter ∧ st1.updater = st.updater ∧
        st1.with_refresh = st.with_refresh ∧
        store1.failGet = store.failGet ∧ store1.failSet = store.failSet ∧
        store1.failDel = store.failDel)
  | [], st, store => by
      constructor
      · intro st1 store1 h
        rw [setKeysLoop] at h
        cases h
      · intro u st1 store1 h
        rw [setKeysLoop] at h
        cases h
        exact ⟨rfl, rfl, rfl, rfl, rfl, rfl, rfl, rfl, rfl, rfl⟩
  | (k, v) :: rest, st, store => by
      constructor
      · intro st1 store1 h
        rw [setKeysLoop, set_key_spec] at h
        by_cases hk : store.failSet (cacheKey st k)
        · rw [if_pos hk] at h
          cases h
          exact ⟨rfl, rfl, rfl, rfl, rfl, rfl, rfl, rfl, rfl, rfl⟩
        · rw [if_neg hk] at h
          exact (setKeysLoop_frame rest
            { st with keys := insertKey (cacheKey st k) st.keys }
            { store with
                data := assocSet store.data (cacheKey st k)
                  (jsonNorm (serialize_value v)) }).1 st1 store1 h
      · intro u st1 store1 h
        rw [setKeysLoop, set_key_spec] at h
        by_cases hk : store.failSet (cacheKey st k)
        · rw [if_pos hk] at h
          cases h
        · rw [if_neg hk] at h
          exact (setKeysLoop_frame rest
            { st with keys := insertKey (cacheKey st k) st.keys }
            { store with
                data := assocSet store.data (cacheKey st k)
                  (jsonNorm (serialize_value v)) }).2 u st1 store1 h

end MachineLemmas

section ReloadLemmas

/-- The write loop touches no store key outside the per-key entries it is
asked to write. -/
theorem setKeysLoop_data_other :
    ∀ (entries : List (String × PyVal)) (st : CacheData) (store : Store) (q : String),
      (∀ e ∈ entries, q ≠ cacheKey st e.1) →
      (∀ st1 store1, setKeysLoop st store entries = .err st1 store1 →
          store1.data.lookup q = store.data.lookup q) ∧
      (∀ u st1 store1, setKeysLoop st store entries = .ok u st1 store1 →
          store1.data.lookup q = store.data.lookup q)
  | [], st, store, q, _ => by
      constructor
      · intro st1 store1 h
        rw [setKeysLoop] at h
        cases h
      · intro u st1 store1 h
        rw [setKeysLoop] at h
        cases h
        rfl
  | (k, v) :: rest, st, store, q, hq => by
      have hqk : q ≠ cacheKey st k := hq (k, v) (by simp)
      have hrec := setKeysLoop_data_other rest
        { st with keys := insertKey (cacheKey st k) st.keys }
        { store with
            data := assocSet store.data (cacheKey st k) (jsonNorm (serialize_value v)) }
        q (fun e he => hq e (List.mem_cons_of_mem _ he))
      constructor
      · intro st1 store1 h
        rw [setKeysLoop, set_key_spec] at h
        by_cases hk : store.failSet (cacheKey st k)
        · rw [if_pos hk] at h
          cases h
          rfl
        · rw [if_neg hk] at h
          have := hrec.1 st1 store1 h
          rw [this]
          exact assocSet_lookup_other store.data _ hqk
      · intro u st1 store1 h
        rw [setKeysLoop, set_key_spec] at h
        by_cases hk : store.failSet (cacheKey st k)
        · rw [if_pos hk] at h
          cases h
        · rw [if_neg hk] at h
          have := hrec.2 u st1 store1 h
          rw [this]
          exact assocSet_lookup_other store.data _ hqk

/-- Fact: `reload` on a non-dict loader result persists it under the single key
`"default"`. -/
theorem reload_default_spec (st : CacheData) (store : Store) (v : PyVal)
    (hv : ∀ entries, v ≠ .pydict entries) :
    CacheData.reload st store (.ok v) =
      match CacheData.set_key st store "default" v with
      | .err st1 store1 => .err st1 store1
      | .ok _ st1 store1 =>
          .ok () { st1 with reload_count := st1.reload_count + 1 } store1 := by
  cases v
  case pydict entries => exact absurd rfl (hv entries)
  all_goals rfl

/-- Full case analysis of `reload`: on any exception (loader or store) the
configuration, the reload counter, the failure oracles and the bare-name
store entry are unchanged; on success the same holds except that the
reload counter is incremented by exactly one. -/
theorem reload_cases (st : CacheData) (store : Store) (l : Except Unit PyVal) :
    (∀ st1 store1, CacheData.reload st store l = .err st1 store1 →
        st1.name = st.name ∧ st1.reload_count = st.reload_count ∧
        st1.lazy_load = st.lazy_load ∧ st1.result_model = st.result_model ∧
        st1.getter = st.getter ∧ st1.updater = st.updater ∧
        st1.with_refresh = st.with_refresh ∧
        store1.failGet = store.failGet ∧ store1.failSet = store.failSet ∧
        store1.failDel = store.failDel ∧
        store1.data.lookup st.name = store.data.lookup st.name) ∧
    (∀ u st1 store1, CacheData.reload st store l = .ok u st1 store1 →
        st1.name = st.name ∧ st1.reload_count = st.reload_count + 1 ∧
        st1.lazy_load = st.lazy_load ∧ st1.result_model = st.result_model ∧
        st1.getter = st.getter ∧ st1.updater = st.updater ∧
        st1.with_refresh = st.with_refresh ∧
        store1.failGet = store.failGet ∧ store1.failSet = store.failSet ∧
        store1.failDel = store.failDel ∧
        store1.data.lookup st.name = store.data.lookup st.name) := by
  cases l with
  | error e =>
      constructor
      · intro st1 store1 h
        rw [CacheData.reload] at h
        cases h
        exact ⟨rfl, rfl, rfl, rfl, rfl, rfl, rfl, rfl, rfl, rfl, rfl⟩
      · intro u st1 store1 h
        rw [CacheData.reload] at h
        cases h
  | ok new_data =>
      cases new_data
      case pydict entries =>
        have hq : ∀ e ∈ entries, st.name ≠ cacheKey st e.1 :=
          fun e _ => (cacheKey_ne_name st e.1).symm
        have hframe := setKeysLoop_frame entries st store
        have hdata := setKeysLoop_data_other entries st store st.name hq
        cases hsl : setKeysLoop st store entries with
        | err st2 store2 =>
            obtain ⟨h1, h2, h3, h4, h5, h6, h7, h8, h9, h10⟩ := hframe.1 st2 store2 hsl
            have hd := hdata.1 st2 store2 hsl
            constructor
            · intro st1 store1 h
              rw [CacheData.reload, hsl] at h
              cases h
              exact ⟨h1, h2, h3, h4, h5, h6, h7, h8, h9, h10, hd⟩
            · intro u st1 store1 h
              rw [CacheData.reload, hsl] at h
              cases h
        | ok u2 st2 store2 =>
            obtain ⟨h1, h2, h3, h4, h5, h6, h7, h8, h9, h10⟩ := hframe.2 u2 st2 store2 hsl
            have hd := hdata.2 u2 st2 store2 hsl
            constructor
            · intro st1 store1 h
              rw [CacheData.reload, hsl] at h
              cases h
            · intro u st1 store1 h
              rw [CacheData.reload, hsl] at h
              cases h
              exact ⟨h1, by rw [h2], h3, h4, h5, h6, h7, h8, h9, h10, hd⟩
      all_goals
        rw [reload_default_spec st store _ (by intro entries h; cases h), set_key_spec]
      all_goals
        by_cases hk : store.failSet (cacheKey st "default")
      all_goals
        first
        | (rw [if_pos hk]
           constructor
           · intro st1 store1 h
             cases h
             exact ⟨rfl, rfl, rfl, rfl, rfl, rfl, rfl, rfl, rfl, rfl, rfl⟩
           · intro u st1 store1 h
             cases h)
        | (rw [if_neg hk]
           constructor
           · intro st1 store1 h
             cases h
           · intro u st1 store1 h
             cases h
             exact ⟨rfl, rfl, rfl, rfl, rfl, rfl, rfl, rfl, rfl, rfl,
               assocSet_lookup_other store.data _ (cacheKey_ne_name st "default").symm⟩)

end ReloadLemmas

section KeyedReloadLemmas

/-- Appending after a common prefix is injective. -/
theorem keyN_inj (name : String) {k1 k2 : String}
    (h : name ++ ":" ++ k1 = name ++ ":" ++ k2) : k1 = k2 := by
  have hd := congrArg String.data h
  simp only [String.data_append, List.append_assoc] at hd
  exact String.ext (List.append_cancel_left (List.append_cancel_left hd))

/-- Starting from fresh tracking, persisting a keyed result tracks exactly
the prefixed loader keys, in order. -/
theorem trackKeysN_fresh (name : String) :
    ∀ (entries : List (String × PyVal)) (ks : List String),
      (entries.map Prod.fst).Nodup →
      (∀ e ∈ entries, name ++ ":" ++ e.1 ∉ ks) →
      trackKeysN name ks entries = ks ++ entries.map fun e => name ++ ":" ++ e.1
  | [], ks, _, _ => by simp [trackKeysN]
  | (k, v) :: rest, ks, hnd, hks => by
      simp only [List.map_cons, List.nodup_cons] at hnd
      have hnotin : name ++ ":" ++ k ∉ ks := hks (k, v) (by simp)
      rw [trackKeysN, insertKey]
      have hcont : ks.contains (name ++ ":" ++ k) = false := by
        simp [hnotin]
      rw [hcont]
      simp only [Bool.false_eq_true, if_false]
      rw [trackKeysN_fresh name rest (ks ++ [name ++ ":" ++ k]) hnd.2]
      · simp
      · intro e he hmem
        rcases List.mem_append.mp hmem with hin | hin
        · exact hks e (List.mem_cons_of_mem _ he) hin
        · have : name ++ ":" ++ e.1 = name ++ ":" ++ k := by simpa using hin
          have : e.1 = k := keyN_inj name this
          exact hnd.1 (this ▸ List.mem_map.mpr ⟨e, he, rfl⟩)

/-- The reload writes do not disturb store keys outside the written
prefixed key set. -/
theorem writeEntriesN_other (name : String) :
    ∀ (entries : List (String × PyVal)) (d : List (String × PyVal)) (q : String),
      (∀ e ∈ entries, q ≠ name ++ ":" ++ e.1) →
      (writeEntriesN name d entries).lookup q = d.lookup q
  | [], d, q, _ => rfl
  | (k, v) :: rest, d, q, hq => by
      rw [writeEntriesN]
      rw [writeEntriesN_other name rest _ q
        (fun e he => hq e (List.mem_cons_of_mem _ he))]
      exact assocSet_lookup_other d _ (hq (k, v) (by simp))

/-- After the reload writes, every written key holds the store-normalized
serialization of its loader value. -/
theorem writeEntriesN_mem (name : String) :
    ∀ (entries : List (String × PyVal)) (d : List (String × PyVal)),
      (entries.map Prod.fst).Nodup →
      ∀ k v, entries.lookup k = some v →
        (writeEntriesN name d entries).lookup (name ++ ":" ++ k) =
          some (jsonNorm (serialize_value v))
  | [], d, _, k, v, h => by simp at h
  | (k0, v0) :: rest, d, hnd, k, v, h => by
      simp only [List.map_cons, List.nodup_cons] at hnd
      rw [List.lookup_cons] at h
      rw [writeEntriesN]
      by_cases hk : k = k0
      · subst hk
        simp only [beq_self_eq_true] at h
        cases h
        rw [writeEntriesN_other name rest _ _ ?_]
        · exact assocSet_lookup_self d _ _
        · intro e he heq
          have : k = e.1 := keyN_inj name heq
          exact hnd.1 (this ▸ List.mem_map.mpr ⟨e, he, rfl⟩)
      · have hb : (k == k0) = false := by simp [hk]
        rw [hb] at h
        simp only at h
        exact writeEntriesN_mem name rest _ hnd.2 k v h

/-- Scanning a colon-free prefix, `split(":", 1)[1]` finds the separator. -/
theorem afterFirstColon_sep :
    ∀ l1 : List Char, ':' ∉ l1 → ∀ l2 : List Char,
      afterFirstColon (l1 ++ ':' :: l2) = some l2
  | [], _, l2 => by simp [afterFirstColon]
  | c :: r, h, l2 => by
      simp only [List.mem_cons, not_or] at h
      rw [List.cons_append, afterFirstColon]
      rw [if_neg (fun hc => h.1 hc.symm)]
      exact afterFirstColon_sep r h.2 l2

/-- Stripping the tracked-key prefix recovers the raw key, provided the
cache name itself contains no colon. -/
theorem stripKeyName_key (name k : String) (hnc : ':' ∉ name.data) :
    stripKeyName (name ++ ":" ++ k) = k := by
  rw [stripKeyName]
  have hdata : (name ++ ":" ++ k).data = name.data ++ ':' :: k.data := by
    simp [String.data_append]
  rw [hdata, afterFirstColon_sep name.data hnc k.data]

end KeyedReloadLemmas

/-- Fact: `get_all_data`'s loop over prefixed keys whose reads all succeed
returns the stored entries with their raw keys, in order. -/
theorem getAllLoop_spec (st : CacheData) (store : Store)
    (hm : st.result_model = none) (hnc : ':' ∉ st.name.data) :
    ∀ entries : List (String × PyVal),
      (∀ e ∈ entries, store.failGet (cacheKey st e.1) = false) →
      (∀ e ∈ entries, store.data.lookup (cacheKey st e.1) = some e.2) →
      getAllLoop st store (entries.map fun e => cacheKey st e.1) = .ok entries
  | [] => by
      intro _ _
      rfl
  | (k, v) :: rest => by
      intro hf hl
      have hfk : store.failGet (cacheKey st k) = false := hf (k, v) (by simp)
      have hlk : store.data.lookup (cacheKey st k) = some v := hl (k, v) (by simp)
      rw [List.map_cons, getAllLoop, storeGet, hfk]
      simp only [Bool.false_eq_true, if_false, hlk, Option.getD_some, hm]
      rw [getAllLoop_spec st store hm hnc rest
        (fun e he => hf e (List.mem_cons_of_mem _ he))
        (fun e he => hl e (List.mem_cons_of_mem _ he))]
      have hs : stripKeyName (cacheKey st k) = k := stripKeyName_key st.name k hnc
      simp [hs]

/-- Any failing read among the tracked keys aborts `get_all_data`'s loop
with the exception (which the caller turns into an empty dict). -/
theorem getAllLoop_fail (st : CacheData) (store : Store) :
    ∀ ks : List String, (∃ k ∈ ks, store.failGet k = true) →
      getAllLoop st store ks = .error ()
  | [], h => by
      obtain ⟨k, hk, _⟩ := h
      simp at hk
  | k0 :: rest, h => by
      rw [getAllLoop, storeGet]
      by_cases h0 : store.failGet k0
      · rw [if_pos h0]
      · rw [if_neg h0]
        obtain ⟨k, hk, hfail⟩ := h
        have hkr : k ∈ rest := by
          rcases List.mem_cons.mp hk with rfl | hin
          · exact absurd hfail (by simp [h0])
          · exact hin
        rw [getAllLoop_fail st store rest ⟨k, hkr, hfail⟩]

/-- Python's `str.upper()` as applied to cache names (ASCII uppercasing,
character by character). -/
def pyUpper (s : String) : String := String.mk (s.data.map Char.toUpper)

/-- The process-wide registry `CacheManager._data`: upper-cased cache name
to cache state. -/
abbrev Registry : Type := List (String × CacheData)

/-- Outcome of a registry operation: the registry after the call, tagged
with whether a `DbCacheException` escaped. A raising operation leaves the
registry exactly as it was. -/
inductive RegRes where
  | ok (reg : Registry)
  | err (reg : Registry)

/-- The `CacheData(...)` construction performed by `CacheManager.new`:
only `name`, `expire` and `lazy_load` are supplied; hooks, `result_model`,
the reload counter and the tracked keys take their defaults. (`expire`
only feeds the store's TTL, which the store model delegates to the
engine.) -/
def freshCache (n : String) (lazy_load : Bool) : CacheData :=
  { name := n
    reload_count := 0
    lazy_load := lazy_load
    result_model := none
    keys := []
    getter := none
    updater := none
    with_refresh := none }

/-- Embedding of `CacheManager.new` (cache.py lines 536-558): upper-case the name,
raise `DbCacheException` if it is already registered, otherwise insert a
fresh cache. -/
def CacheManager.new (reg : Registry) (name : String) (lazy_load : Bool) : RegRes :=
  let n := pyUpper name
  if (List.lookup n reg).isSome then .err reg
  else .ok (reg ++ [(n, freshCache n lazy_load)])

/-- Rebind one registry entry in place. -/
def setEntry (reg : Registry) (n : String) (g : CacheData → CacheData) : Registry :=
  reg.map fun e => if e.1 == n then (e.1, g e.2) else e

/-- Embedding of `CacheManager.updater` under the `validate_name` decorator (cache.py
lines 32-41, 582-590): raise `DbCacheException` when the upper-cased name
was never registered, otherwise attach the updater hook. -/
def CacheManager.updater (reg : Registry) (name : String)
    (f : PyVal → String → PyVal → PyVal) : RegRes :=
  let n := pyUpper name
  if (List.lookup n reg).isSome then
    .ok (setEntry reg n fun st => { st with updater := some f })
  else .err reg

/-- Embedding of `CacheManager.getter` under `validate_name` (cache.py lines 592-601):
raise when the name was never registered, otherwise attach the getter and
record the result model. -/
def CacheManager.getter (reg : Registry) (name : String) (g : GetterFn)
    (result_model : TypeDesc) : RegRes :=
  let n := pyUpper name
  if (List.lookup n reg).isSome then
    .ok (setEntry reg n fun st =>
      { st with getter := some g, result_model := some result_model })
  else .err reg

/-- Embedding of `CacheManager.with_refresh` under `validate_name` (cache.py lines
603-611): raise when the name was never registered, otherwise attach the
refresher hook. -/
def CacheManager.with_refresh (reg : Registry) (name : String)
    (f : PyVal → PyVal) : RegRes :=
  let n := pyUpper name
  if (List.lookup n reg).isSome then
    .ok (setEntry reg n fun st => { st with with_refresh := some f })
  else .err reg

section Claims

/-- A store in which every call succeeds. -/
def wStoreOk : Store :=
  { data := [], failGet := fun _ => false, failSet := fun _ => false,
    failDel := fun _ => false }

/-- A plain lazily-loaded cache named `A` with no hooks. -/
def wCache : CacheData := freshCache "A" true

/-- C5: `reload` increments the cache's reload counter exactly when it
completes successfully: a raising loader makes `reload` re-raise with the
whole state (counter included) unchanged, a successful run increments the
counter by one, and any raising run (loader or store) leaves the counter
unchanged. -/
theorem c5_reload_counter (st : CacheData) (store : Store) (l : Except Unit PyVal) :
    (l = .error () → CacheData.reload st store l = .err st store) ∧
    (∀ u st1 store1, CacheData.reload st store l = .ok u st1 store1 →
      st1.reload_count = st.reload_count + 1) ∧
    (∀ st1 store1, CacheData.reload st store l = .err st1 store1 →
      st1.reload_count = st.reload_count) := by
  refine ⟨?_, ?_, ?_⟩
  · intro hl
    subst hl
    rfl
  · intro u st1 store1 h
    exact ((reload_cases st store l).2 u st1 store1 h).2.1
  · intro st1 store1 h
    exact ((reload_cases st store l).1 st1 store1 h).2.1

/-- Witness for C5 at a concrete cache: a raising loader re-raises, and a
one-entry keyed reload bumps the counter from 0 to 1. -/
theorem c5_witness :
    CacheData.reload wCache wStoreOk (.error ()) = .err wCache wStoreOk ∧
    ({ wCache with keys := ["A:k"], reload_count := 1 } : CacheData).reload_count =
      wCache.reload_count + 1 :=
  ⟨(c5_reload_counter wCache wStoreOk (.error ())).1 rfl,
   (c5_reload_counter wCache wStoreOk (.ok (.pydict [("k", .pyint 1)]))).2.1 ()
     { wCache with keys := ["A:k"], reload_count := 1 }
     { wStoreOk with data := [("A:k", .pyint 1)] } (by rfl)⟩

/-- C6: with no refresher configured, `refresh` delegates to `reload`
outright, so the two calls agree on the entire outcome — post-state key
set, stored values and reload counter included. -/
theorem c6_refresh_is_reload (st : CacheData) (store : Store)
    (l : Except Unit PyVal) (h : st.with_refresh = none) :
    CacheData.refresh st store l = CacheData.reload st store l := by
  simp [CacheData.refresh, h]

/-- Witness for C6 at a concrete refresher-free cache. -/
theorem c6_witness :
    CacheData.refresh wCache wStoreOk (.ok (.pydict [("k", .pyint 1)])) =
      CacheData.reload wCache wStoreOk (.ok (.pydict [("k", .pyint 1)])) :=
  c6_refresh_is_reload wCache wStoreOk (.ok (.pydict [("k", .pyint 1)])) rfl

/-- C7: with no updater configured, `update` logs a warning and returns:
it raises nothing and leaves both the cache state (tracked keys included)
and every stored entry untouched. -/
theorem c7_update_no_updater (st : CacheData) (store : Store) (k : String)
    (v : PyVal) (h : st.updater = none) :
    CacheData.update st store k v = .ok () st store := by
  simp [CacheData.update, h]

/-- Witness for C7 at a concrete updater-free cache. -/
theorem c7_witness :
    CacheData.update wCache wStoreOk "k" (.pyint 7) = .ok () wCache wStoreOk :=
  c7_update_no_updater wCache wStoreOk "k" (.pyint 7) rfl

end Claims

/-- C8: registering a second cache whose upper-cased name equals an
already-registered one raises `DbCacheException` and returns the registry
unchanged (the first registration still present, untouched); attaching an
updater, getter or refresher to a name never registered raises the
`validate_name` "does not exist" error and attaches nothing. -/
theorem c8_registry_validation :
    (∀ (reg : Registry) (name1 name2 : String) (lazy : Bool) (e : CacheData),
      List.lookup (pyUpper name1) reg = some e → pyUpper name2 = pyUpper name1 →
      CacheManager.new reg name2 lazy = .err reg ∧
        List.lookup (pyUpper name1) reg = some e) ∧
    (∀ (reg : Registry) (name : String) (f : PyVal → String → PyVal → PyVal),
      List.lookup (pyUpper name) reg = none →
      CacheManager.updater reg name f = .err reg) ∧
    (∀ (reg : Registry) (name : String) (g : GetterFn) (m : TypeDesc),
      List.lookup (pyUpper name) reg = none →
      CacheManager.getter reg name g m = .err reg) ∧
    (∀ (reg : Registry) (name : String) (f : PyVal → PyVal),
      List.lookup (pyUpper name) reg = none →
      CacheManager.with_refresh reg name f = .err reg) := by
  refine ⟨?_, ?_, ?_, ?_⟩
  · intro reg name1 name2 lazy e h1 h2
    refine ⟨?_, h1⟩
    rw [CacheManager.new]
    simp only [h2, h1, Option.isSome_some, if_true]
  · intro reg name f h
    rw [CacheManager.updater]
    simp only [h, Option.isSome_none, Bool.false_eq_true, if_false]
  · intro reg name g m h
    rw [CacheManager.getter]
    simp only [h, Option.isSome_none, Bool.false_eq_true, if_false]
  · intro reg name f h
    rw [CacheManager.with_refresh]
    simp only [h, Option.isSome_none, Bool.false_eq_true, if_false]

/-- One concrete registry holding the cache `A`. -/
def wReg : Registry := [("A", freshCache "A" true)]

/-- Witness for C8: re-registering `a` against the existing `A` fails and
keeps the registry; attaching hooks to the unknown name `B` fails. -/
theorem c8_witness :
    (CacheManager.new wReg "a" true = .err wReg ∧
      List.lookup (pyUpper "a") wReg = some (freshCache "A" true)) ∧
    CacheManager.updater ([] : Registry) "B" (fun c _ _ => c) = .err [] ∧
    CacheManager.getter ([] : Registry) "B" (fun s _ => .ok (.pynone, s))
      { fields := [] } = .err [] ∧
    CacheManager.with_refresh ([] : Registry) "B" (fun c => c) = .err [] :=
  ⟨(c8_registry_validation.1 wReg "a" "a" true (freshCache "A" true)
      (by rfl) rfl),
   c8_registry_validation.2.1 [] "B" (fun c _ _ => c) (by rfl),
   c8_registry_validation.2.2.1 [] "B" (fun s _ => .ok (.pynone, s))
     { fields := [] } (by rfl),
   c8_registry_validation.2.2.2 [] "B" (fun c => c) (by rfl)⟩

/-- C9: with a zero reload counter and `lazy_load` false, both `get` and
`get_all` first run a full `reload` and only then read (a raising reload
propagates); with `lazy_load` true or a non-zero counter, both read
immediately — no implicit reload happens, so the outcome does not consult
the loader at all. -/
theorem c9_lazy_init (st : CacheData) (store : Store) (l : Except Unit PyVal)
    (k : String) :
    (st.reload_count = 0 → st.lazy_load = false →
      (CacheData.get st store l k =
        match CacheData.reload st store l with
        | .err st1 store1 => .err st1 store1
        | .ok _ st1 store1 => getAfter st1 store1 k) ∧
      (CacheData.get_all st store l =
        match CacheData.reload st store l with
        | .err st1 store1 => .err st1 store1
        | .ok _ st1 store1 => getAllAfter st1 store1)) ∧
    ((st.reload_count ≠ 0 ∨ st.lazy_load = true) →
      CacheData.get st store l k = getAfter st store k ∧
      CacheData.get_all st store l = getAllAfter st store) := by
  constructor
  · intro h1 h2
    have hcond : (st.reload_count == 0 && !st.lazy_load) = true := by
      simp [h1, h2]
    rw [CacheData.get, CacheData.get_all, if_pos hcond, if_pos hcond]
    exact ⟨rfl, rfl⟩
  · intro h
    have hcond : (st.reload_count == 0 && !st.lazy_load) = false := by
      rcases h with h | h
      · simp [h]
      · simp [h]
    rw [CacheData.get, CacheData.get_all]
    rw [hcond]
    exact ⟨rfl, rfl⟩

/-- An eagerly-loaded cache named `A` with no hooks. -/
def wEager : CacheData := freshCache "A" false

/-- Witness for C9: the eager cache reloads first on both read paths; the
lazy cache reads directly. -/
theorem c9_witness :
    (CacheData.get wEager wStoreOk (.ok (.pydict [("k", .pyint 1)])) "k" =
      match CacheData.reload wEager wStoreOk (.ok (.pydict [("k", .pyint 1)])) with
      | .err st1 store1 => .err st1 store1
      | .ok _ st1 store1 => getAfter st1 store1 "k") ∧
    (CacheData.get wCache wStoreOk (.ok (.pydict [("k", .pyint 1)])) "k" =
      getAfter wCache wStoreOk "k") :=
  ⟨((c9_lazy_init wEager wStoreOk (.ok (.pydict [("k", .pyint 1)])) "k").1
      rfl rfl).1,
   ((c9_lazy_init wCache wStoreOk (.ok (.pydict [("k", .pyint 1)])) "k").2
      (Or.inr rfl)).1⟩

/-- C10: with a refresher configured, a falsy whole-dataset read under the
bare cache name (None or empty) makes `refresh` return at once — no
refresher call, no store write, cache state and store untouched; `reload`
never writes the bare cache name (it persists a keyed result only under
per-key entries), so a refresh performed after a reload that started from
a store with nothing under the bare name changes nothing either. -/
theorem c10_refresh_after_reload (st : CacheData) (store : Store)
    (l l2 : Except Unit PyVal) (f : PyVal → PyVal) :
    (st.with_refresh = some f → pyTruthy (CacheData.get_data st store) = false →
      CacheData.refresh st store l = .ok () st store) ∧
    (∀ st1 store1, CacheData.reload st store l = .err st1 store1 →
      store1.data.lookup st.name = store.data.lookup st.name) ∧
    (∀ u st1 store1, CacheData.reload st store l = .ok u st1 store1 →
      store1.data.lookup st.name = store.data.lookup st.name) ∧
    (st.with_refresh = some f → store.data.lookup st.name = none →
      store.failGet st.name = false →
      ∀ u st1 store1, CacheData.reload st store l = .ok u st1 store1 →
        CacheData.refresh st1 store1 l2 = .ok () st1 store1) := by
  refine ⟨?_, ?_, ?_, ?_⟩
  · intro hw ht
    rw [CacheData.refresh, hw]
    simp only [ht, Bool.false_eq_true, if_false]
  · intro st1 store1 h
    exact ((reload_cases st store l).1 st1 store1 h).2.2.2.2.2.2.2.2.2.2
  · intro u st1 store1 h
    exact ((reload_cases st store l).2 u st1 store1 h).2.2.2.2.2.2.2.2.2.2
  · intro hw hnone hfg u st1 store1 h
    obtain ⟨hn, _, _, _, _, _, hw1, hfg1, _, _, hd⟩ :=
      (reload_cases st store l).2 u st1 store1 h
    have hget : CacheData.get_data st1 store1 = .pynone := by
      rw [CacheData.get_data, storeGet, hn, hfg1, hfg]
      simp only [Bool.false_eq_true, if_false, hd, hnone, Option.getD_none]
      cases st1.result_model with
      | none => rfl
      | some m => rfl
    rw [CacheData.refresh, hw1, hw, hget]
    simp [pyTruthy]

/-- A cache with a refresher configured (and nothing else). -/
def wRefr : CacheData := { freshCache "A" true with with_refresh := some fun v => v }

/-- Witness for C10: on the empty store, refresh under a refresher is a
no-op, and it remains a no-op after a keyed reload of one entry. -/
theorem c10_witness :
    CacheData.refresh wRefr wStoreOk (.ok .pynone) = .ok () wRefr wStoreOk ∧
    CacheData.refresh
      ({ wRefr with keys := ["A:k"], reload_count := 1 })
      ({ wStoreOk with data := [("A:k", .pyint 1)] }) (.ok .pynone) =
      .ok () ({ wRefr with keys := ["A:k"], reload_count := 1 })
        ({ wStoreOk with data := [("A:k", .pyint 1)] }) :=
  ⟨(c10_refresh_after_reload wRefr wStoreOk (.ok .pynone) (.ok .pynone)
      (fun v => v)).1 rfl rfl,
   (c10_refresh_after_reload wRefr wStoreOk (.ok (.pydict [("k", .pyint 1)]))
      (.ok .pynone) (fun v => v)).2.2.2 rfl rfl rfl ()
     ({ wRefr with keys := ["A:k"], reload_count := 1 })
     ({ wStoreOk with data := [("A:k", .pyint 1)] }) (by rfl)⟩

/-- A record type with a plain, an enum, a datetime and a reverse-relation
field. -/
def wDesc : TypeDesc :=
  { fields := [("id", .plain), ("module", .plain),
               ("status", .enumField ["ON", "OFF"]),
               ("created", .datetimeField), ("refs", .reverseRel)] }

/-- A well-typed instance of `wDesc`. -/
def wVals : List (String × PyVal) :=
  [("id", .pyint 1), ("module", .pystr "foo"),
   ("status", .pyenum ["ON", "OFF"] "ON"),
   ("created", .pydatetime "2024-01-01T00:00:00"),
   ("refs", .pyrev [])]

/-- Witness for C2 at a concrete record: the well-typedness check holds
and the round trip reproduces the non-reverse fields, dropping `refs`. -/
theorem c2_witness :
    WellTypedRecord wDesc wVals = true ∧
    deserialize_value (some wDesc) (serialize_value (.pyrecord wDesc wVals false)) =
      .pyrecord wDesc (roundtripFields wDesc wVals) true :=
  ⟨by decide, record_roundtrip wDesc wVals false (by decide)⟩

/-- C3: the serializer is total and always returns a JSON-compatible tree
(its last resort is stringification — it never raises); and during record
deserialization each field of the dict is processed independently, so one
field's failed coercion removes at most that field and never aborts the
remaining fields of the record. -/
theorem c3_serialize_total_deser_tolerant :
    (∀ v : PyVal, isJsonTree (serialize_value v) = true) ∧
    (∀ (desc : TypeDesc) (entries : List (String × PyVal)) (n : String),
      (entries.map Prod.fst).Nodup →
      (deserRecord desc entries).lookup n =
        (entries.lookup n).bind (deserField desc n)) :=
  ⟨serialize_value_json,
   fun desc entries n h => deserRecord_lookup desc entries h n⟩

/-- A record type where the `d` field's coercion fails on bad input. -/
def w3Desc : TypeDesc := { fields := [("a", .plain), ("d", .datetimeField)] }

/-- A dict whose `d` entry holds an int, which `to_python_value` rejects. -/
def w3Entries : List (String × PyVal) := [("a", .pyint 1), ("d", .pyint 5)]

/-- Witness for C3: serialization of a record is a JSON tree, and against
`w3Entries` the failing field `d` is dropped while `a` is still produced
with its value. -/
theorem c3_witness :
    isJsonTree (serialize_value (.pyrecord w3Desc w3Entries false)) = true ∧
    (deserRecord w3Desc w3Entries).lookup "a" =
      (w3Entries.lookup "a").bind (deserField w3Desc "a") ∧
    (deserRecord w3Desc w3Entries).lookup "d" =
      (w3Entries.lookup "d").bind (deserField w3Desc "d") :=
  ⟨c3_serialize_total_deser_tolerant.1 (.pyrecord w3Desc w3Entries false),
   c3_serialize_total_deser_tolerant.2 w3Desc w3Entries "a" (by decide),
   c3_serialize_total_deser_tolerant.2 w3Desc w3Entries "d" (by decide)⟩

/-- A cache with an updater that stores the passed value as-is. -/
def c4Cache : CacheData :=
  { freshCache "U" true with updater := some fun _ _ v => v }

/-- A store whose write to the per-key entry `U:k` raises. -/
def c4Store : Store :=
  { data := [], failGet := fun _ => false, failSet := fun k => k == "U:k",
    failDel := fun _ => false }

/-- Counterexample to C4 as stated: a backing-store failure during
`update`'s write step is NOT swallowed — `update` calls `set_key`, whose
`except` clause re-raises, so the exception reaches the caller instead of
the operation completing without raising. -/
theorem c4_counterexample :
    CacheData.update c4Cache c4Store "k" (.pyint 3) = .err c4Cache c4Store := by
  rfl

/-- C4 (amended): store failures during the pure read paths degrade to
neutral results — a failing per-key read makes `get_key` return None, a
failing read of any tracked key makes `get_all_data` return the empty
dict, `clear` never raises, `get`/`get_all` complete when no implicit
reload runs and no custom getter is configured, and a failing whole-dataset
read makes `refresh` (with a refresher) a no-op. Write paths are different:
`update`'s persist step re-raises store failures (see the
counterexample), as do `set_data` inside `refresh` and an implicit
`reload` inside `get`/`get_all`. -/
theorem c4_read_paths_degrade :
    (∀ (st : CacheData) (store : Store) (k : String),
      store.failGet (cacheKey st k) = true → CacheData.get_key st store k = .pynone) ∧
    (∀ (st : CacheData) (store : Store) (k : String),
      k ∈ st.keys → store.failGet k = true →
      CacheData.get_all_data st store = []) ∧
    (∀ (st : CacheData) (store : Store), (CacheData.clear st store).isErr = false) ∧
    (∀ (st : CacheData) (store : Store) (l : Except Unit PyVal) (k : String),
      st.getter = none → (st.reload_count ≠ 0 ∨ st.lazy_load = true) →
      (CacheData.get st store l k).isErr = false ∧
      (CacheData.get_all st store l).isErr = false) ∧
    (∀ (st : CacheData) (store : Store) (l : Except Unit PyVal) (f : PyVal → PyVal),
      st.with_refresh = some f → store.failGet st.name = true →
      CacheData.refresh st store l = .ok () st store) := by
  refine ⟨?_, ?_, ?_, ?_, ?_⟩
  · intro st store k h
    simp [CacheData.get_key, storeGet, h]
  · intro st store k hk hf
    rw [CacheData.get_all_data, getAllLoop_fail st store st.keys ⟨k, hk, hf⟩]
  · intro st store
    rw [CacheData.clear]
    cases clearLoop store st.keys with
    | error s => rfl
    | ok s => rfl
  · intro st store l k hg h
    have hcond : (st.reload_count == 0 && !st.lazy_load) = false := by
      rcases h with h | h
      · simp [h]
      · simp [h]
    rw [CacheData.get, CacheData.get_all, hcond]
    simp only [Bool.false_eq_true, if_false]
    rw [getAfter, getAllAfter, hg]
    exact ⟨rfl, rfl⟩
  · intro st store l f hw hf
    have hget : CacheData.get_data st store = .pynone := by
      simp [CacheData.get_data, storeGet, hf]
    rw [CacheData.refresh, hw, hget]
    simp [pyTruthy]

/-- A store every read of which raises. -/
def c4gStore : Store :=
  { data := [], failGet := fun _ => true, failSet := fun _ => false,
    failDel := fun _ => false }

/-- A plain cache named `A` tracking the key `A:k`. -/
def c4kCache : CacheData := { freshCache "A" true with keys := ["A:k"] }

/-- Witness for the amended C4: on a store whose reads all fail, `get_key`
returns None, `get_all_data` returns the empty dict, `clear` and lazy
`get`/`get_all` do not raise, and refresh with a refresher is a no-op. -/
theorem c4_witness :
    CacheData.get_key c4kCache c4gStore "k" = .pynone ∧
    CacheData.get_all_data c4kCache c4gStore = [] ∧
    (CacheData.clear c4kCache c4gStore).isErr = false ∧
    (CacheData.get c4kCache c4gStore (.ok .pynone) "k").isErr = false ∧
    (CacheData.get_all c4kCache c4gStore (.ok .pynone)).isErr = false ∧
    CacheData.refresh wRefr c4gStore (.ok .pynone) = .ok () wRefr c4gStore :=
  ⟨c4_read_paths_degrade.1 c4kCache c4gStore "k" rfl,
   c4_read_paths_degrade.2.1 c4kCache c4gStore "A:k" (by simp [c4kCache]) rfl,
   c4_read_paths_degrade.2.2.1 c4kCache c4gStore,
   (c4_read_paths_degrade.2.2.2.1 c4kCache c4gStore (.ok .pynone) "k" rfl
     (Or.inr rfl)).1,
   (c4_read_paths_degrade.2.2.2.1 c4kCache c4gStore (.ok .pynone) "k" rfl
     (Or.inr rfl)).2,
   c4_read_paths_degrade.2.2.2.2 wRefr c4gStore (.ok .pynone) (fun v => v)
     rfl rfl⟩

/-- A cache named `C` that already tracks a stale per-key entry `C:old`
(left behind by an earlier `set_key` or a previous reload). -/
def c1Cache : CacheData := { freshCache "C" true with keys := ["C:old"] }

/-- The store holding that stale entry. -/
def c1Store : Store :=
  { data := [("C:old", .pystr "x")], failGet := fun _ => false,
    failSet := fun _ => false, failDel := fun _ => false }

/-- The cache state after reloading `{"a": 1}` into `c1Cache`. -/
def c1Post : CacheData := { c1Cache with keys := ["C:old", "C:a"], reload_count := 1 }

/-- The store after that reload. -/
def c1PostStore : Store :=
  { c1Store with data := [("C:a", .pyint 1), ("C:old", .pystr "x")] }

/-- Counterexample to C1 as stated: `reload` never prunes previously
tracked keys, so after a successful reload whose keyed loader output is
exactly `{"a": 1}`, `get_all` still returns the stale key `old` alongside
`a` — the returned key set is NOT exactly the loader's key set. -/
theorem c1_counterexample :
    CacheData.reload c1Cache c1Store (.ok (.pydict [("a", .pyint 1)])) =
      .ok () c1Post c1PostStore ∧
    CacheData.get_all c1Post c1PostStore (.ok .pynone) =
      .ok (.pydict [("old", .pystr "x"), ("a", .pyint 1)]) c1Post c1PostStore := by
  constructor
  · rfl
  · rfl

/-- The cache state `reload` produces from a fresh cache and a keyed
loader result: prefixed keys tracked in order, counter at one. -/
def reloadedCache (name : String) (lazy : Bool)
    (entries : List (String × PyVal)) : CacheData :=
  { freshCache name lazy with keys := trackKeysN name [] entries, reload_count := 1 }

/-- The store `reload` produces from that run. -/
def reloadedStore (name : String) (store : Store)
    (entries : List (String × PyVal)) : Store :=
  { store with data := writeEntriesN name store.data entries }

/-- C1 (amended): for a cache with no custom getter and no result model
(as registration creates it), starting with no previously tracked keys,
a successful keyed reload of a duplicate-free, JSON-stable loader output
(with no store failures on the touched keys, and a colon-free cache name)
persists exactly the loader's entries: afterwards every loader key is
individually retrievable via `get` with the loader's value, and `get_all`
returns exactly the loader's key set with matching values — no extra keys,
none missing. The previously-tracked-keys restriction is forced by the
counterexample: stale tracked keys survive a reload and reappear in
`get_all`. -/
theorem c1_keyed_reload_roundtrip (name : String) (lazy : Bool) (store : Store)
    (entries : List (String × PyVal)) (l2 : Except Unit PyVal)
    (hnc : ':' ∉ name.data)
    (hnd : (entries.map Prod.fst).Nodup)
    (hstable : ∀ e ∈ entries, jsonStable e.2 = true)
    (hset : ∀ e ∈ entries, store.failSet (cacheKey (freshCache name lazy) e.1) = false)
    (hget : ∀ e ∈ entries, store.failGet (cacheKey (freshCache name lazy) e.1) = false) :
    CacheData.reload (freshCache name lazy) store (.ok (.pydict entries)) =
      .ok () (reloadedCache name lazy entries) (reloadedStore name store entries) ∧
    (∀ e ∈ entries,
      CacheData.get (reloadedCache name lazy entries)
          (reloadedStore name store entries) l2 e.1 =
        .ok e.2 (reloadedCache name lazy entries) (reloadedStore name store entries)) ∧
    CacheData.get_all (reloadedCache name lazy entries)
        (reloadedStore name store entries) l2 =
      .ok (.pydict entries) (reloadedCache name lazy entries)
        (reloadedStore name store entries) := by
  have hloop := setKeysLoop_nofail entries (freshCache name lazy) store hset
  refine ⟨?_, ?_, ?_⟩
  · rw [CacheData.reload, hloop]
    rfl
  · intro e he
    obtain ⟨k, v⟩ := e
    have hst : jsonStable v = true := hstable (k, v) he
    have hlk : entries.lookup k = some v := lookup_of_mem_nodup entries k v hnd he
    have hwl := writeEntriesN_mem name entries store.data hnd k v hlk
    rw [stable_serialize v hst, stable_jsonNorm v hst] at hwl
    have hgk : CacheData.get_key (reloadedCache name lazy entries)
        (reloadedStore name store entries) k = v := by
      rw [CacheData.get_key, storeGet]
      rw [show (reloadedStore name store entries).failGet
            (cacheKey (reloadedCache name lazy entries) k) =
          store.failGet (cacheKey (freshCache name lazy) k) from rfl]
      rw [hget (k, v) he]
      simp only [Bool.false_eq_true, if_false]
      rw [show List.lookup (cacheKey (reloadedCache name lazy entries) k)
            (reloadedStore name store entries).data =
          List.lookup (name ++ ":" ++ k) (writeEntriesN name store.data entries)
          from rfl]
      rw [hwl]
      rfl
    rw [show CacheData.get (reloadedCache name lazy entries)
          (reloadedStore name store entries) l2 k =
        Res.ok (CacheData.get_key (reloadedCache name lazy entries)
          (reloadedStore name store entries) k)
          (reloadedCache name lazy entries) (reloadedStore name store entries)
        from rfl]
    rw [hgk]
  · have hkeys : (reloadedCache name lazy entries).keys =
        entries.map (fun e => cacheKey (reloadedCache name lazy entries) e.1) := by
      have h := trackKeysN_fresh name entries [] hnd (by simp)
      simpa using h
    have hlookup : ∀ e ∈ entries,
        List.lookup (cacheKey (reloadedCache name lazy entries) e.1)
          (reloadedStore name store entries).data = some e.2 := by
      intro e he
      obtain ⟨k, v⟩ := e
      have hst : jsonStable v = true := hstable (k, v) he
      have hlk : entries.lookup k = some v := lookup_of_mem_nodup entries k v hnd he
      have hwl := writeEntriesN_mem name entries store.data hnd k v hlk
      rw [stable_serialize v hst, stable_jsonNorm v hst] at hwl
      exact hwl
    have hfail : ∀ e ∈ entries,
        (reloadedStore name store entries).failGet
          (cacheKey (reloadedCache name lazy entries) e.1) = false :=
      fun e he => hget e he
    have hspec := getAllLoop_spec (reloadedCache name lazy entries)
      (reloadedStore name store entries) rfl hnc entries hfail hlookup
    rw [show CacheData.get_all (reloadedCache name lazy entries)
          (reloadedStore name store entries) l2 =
        Res.ok (.pydict (CacheData.get_all_data (reloadedCache name lazy entries)
          (reloadedStore name store entries)))
          (reloadedCache name lazy entries) (reloadedStore name store entries)
        from rfl]
    rw [CacheData.get_all_data, hkeys, hspec]

/-- Witness for the amended C1: a fresh cache `P` reloaded with
`{"a": 1, "b": "s"}` serves `get "a"` with `1` and `get_all` with exactly
the two loader entries. -/
theorem c1_witness :
    CacheData.reload (freshCache "P" true) wStoreOk
        (.ok (.pydict [("a", .pyint 1), ("b", .pystr "s")])) =
      .ok () (reloadedCache "P" true [("a", .pyint 1), ("b", .pystr "s")])
        (reloadedStore "P" wStoreOk [("a", .pyint 1), ("b", .pystr "s")]) ∧
    CacheData.get (reloadedCache "P" true [("a", .pyint 1), ("b", .pystr "s")])
        (reloadedStore "P" wStoreOk [("a", .pyint 1), ("b", .pystr "s")])
        (.ok .pynone) "a" =
      .ok (.pyint 1) (reloadedCache "P" true [("a", .pyint 1), ("b", .pystr "s")])
        (reloadedStore "P" wStoreOk [("a", .pyint 1), ("b", .pystr "s")]) ∧
    CacheData.get_all (reloadedCache "P" true [("a", .pyint 1), ("b", .pystr "s")])
        (reloadedStore "P" wStoreOk [("a", .pyint 1), ("b", .pystr "s")])
        (.ok .pynone) =
      .ok (.pydict [("a", .pyint 1), ("b", .pystr "s")])
        (reloadedCache "P" true [("a", .pyint 1), ("b", .pystr "s")])
        (reloadedStore "P" wStoreOk [("a", .pyint 1), ("b", .pystr "s")]) := by
  have h := c1_keyed_reload_roundtrip "P" true wStoreOk
    [("a", .pyint 1), ("b", .pystr "s")] (.ok .pynone)
    (by decide) (by decide) (by decide) (fun e _ => rfl) (fun e _ => rfl)
  exact ⟨h.1, h.2.1 ("a", .pyint 1) (by simp), h.2.2⟩
